import Mathlib

/-!
Verification of the crawl-orchestration core of the `potato-WebCrawler`
repository, shallowly embedded in Lean 4.

The embedding covers:
* `src/extractors/extractor.py` — `DataExtractor.extract_by_css`,
  `DataExtractor.extract_by_xpath`, `DataExtractor.extract_all`;
* `src/utils/http_client.py` — `HttpClient.resolve_url`,
  `HttpClient._apply_delay_with_jitter`, `HttpClient.get`;
* `src/core/crawler.py` — `WebCrawler._is_valid_next_page`,
  `WebCrawler._handle_pagination`, `WebCrawler.crawl`.

HTML parsing (BeautifulSoup / lxml) is abstracted: a document is modelled
by its selection behaviour, i.e. functions from a CSS selector (resp. an
XPath expression) to the list of matched elements (resp. stringified
results), with `Except` capturing the exception a malformed selector
raises.  Network I/O is modelled by oracles giving the outcome of each
attempted request.  Wall-clock time, the sampled jitter factor and
`urllib.parse.urljoin` are passed in as explicit parameters.
-/

namespace WebCrawlerModel

deriving instance DecidableEq for Except















/-- Python truthiness of an optional string (`None` and `''` are falsy). -/
def pyTruthy : Option String → Bool
  | none => false
  | some s => s ≠ ""

/-- An HTML element as the extractor observes it: its visible text
(modelling `element.get_text(strip=True)`), its attributes
(`element.get(name)`), and its class list (`element.get('class', [])`,
which BeautifulSoup returns as a list of class names). -/
structure Element where
  text : String
  attrs : List (String × String)
  classes : List String
deriving DecidableEq, Repr

/-- `element.get(name)` — attribute lookup returning `None` when absent. -/
def Element.getAttr (e : Element) (a : String) : Option String :=
  (e.attrs.find? (fun p => p.1 = a)).map (fun p => p.2)

/-- A parsed HTML document, abstracted by its selection behaviour.
`cssSelect` models `soup.select(selector)`; `xpathRaw` models
`[str(r) for r in tree.xpath(xpath)]` before any stripping.  An
`Except.error` models the exception raised by an invalid selector. -/
structure Doc where
  cssSelect : String → Except Unit (List Element)
  xpathRaw : String → Except Unit (List String)

/-- `DataExtractor.extract_by_css(selector, attr)`: select the elements,
then for each one take the named attribute's value with `''` as default
(`element.get(attr, '')`) when `attr` is truthy, otherwise the stripped
text.  Propagates the selection exception. -/
def extract_by_css (d : Doc) (selector : String) (attr : Option String) :
    Except Unit (List String) :=
  match d.cssSelect selector with
  | .error e => .error e
  | .ok elements =>
      .ok (elements.map (fun el =>
        if pyTruthy attr then ((el.getAttr (attr.getD "")).getD "")
        else el.text))

/-- `DataExtractor.extract_by_xpath(xpath)`: evaluate the expression and
strip each stringified result.  Propagates the evaluation exception. -/
def extract_by_xpath (d : Doc) (xpath : String) : Except Unit (List String) :=
  match d.xpathRaw xpath with
  | .error e => .error e
  | .ok results => .ok (results.map String.trim)

/-- The value stored for one field of a record: a single
string-or-`None` (when `multiple=False`) or a list (when `multiple=True`). -/
inductive FieldValue
  | scalar : Option String → FieldValue
  | list : List String → FieldValue
deriving DecidableEq, Repr

/-- One extraction rule as read by `extract_all`: `rule['field']`,
`rule.get('type', 'css')`, `rule['selector']`, `rule.get('attr')`,
`rule.get('multiple', False)` — the dictionary defaults are applied at
construction. -/
structure Rule where
  field : String
  rtype : String
  selector : String
  attr : Option String
  multiple : Bool
deriving DecidableEq, Repr

/-- The body of `extract_all`'s `try` block for one rule: dispatch on the
rule type, `ValueError` (modelled as `Except.error`) on an unsupported
type. -/
def extractField (d : Doc) (r : Rule) : Except Unit (List String) :=
  if r.rtype = "css" then extract_by_css d r.selector r.attr
  else if r.rtype = "xpath" then extract_by_xpath d r.selector
  else .error ()

/-- The value `extract_all` assigns to `data[field]` for one rule: on
success, the full result list (`multiple`) or `results[0] if results else
None`; any exception is caught and the field resolves to `None`
(`multiple=False`) or `[]` (`multiple=True`). -/
def evalRule (d : Doc) (r : Rule) : FieldValue :=
  match extractField d r with
  | .ok results => if r.multiple then .list results else .scalar results.head?
  | .error _ => if r.multiple then .list [] else .scalar none

/-- Python-dict assignment `data[k] = v` on an insertion-ordered
association list: replace in place when the key exists, else append. -/
def dictInsert (d : List (String × FieldValue)) (k : String) (v : FieldValue) :
    List (String × FieldValue) :=
  if d.any (fun p => p.1 = k) then
    d.map (fun p => if p.1 = k then (k, v) else p)
  else d ++ [(k, v)]

/-- Python-dict lookup `data[k]`. -/
def dictLookup (d : List (String × FieldValue)) (k : String) : Option FieldValue :=
  (d.find? (fun p => p.1 = k)).map (fun p => p.2)

/-- `DataExtractor.extract_all(rules)`: fold over the rules, assigning
each field its value in an insertion-ordered dictionary. -/
def extract_all (d : Doc) (rules : List Rule) : List (String × FieldValue) :=
  rules.foldl (fun data r => dictInsert data r.field (evalRule d r)) []

/-- Concrete documents and rules used by the witnesses below. -/
def c1Doc : Doc :=
  { cssSelect := fun s =>
      if s = "h1" then .ok [⟨"Hello", [], []⟩, ⟨"World", [], []⟩] else .ok []
    xpathRaw := fun _ => .ok [] }

def c1RuleMulti : Rule := ⟨"titles", "css", "h1", none, true⟩

def c1RuleMiss : Rule := ⟨"missing", "css", "p", none, false⟩

def c3Doc : Doc :=
  { cssSelect := fun s =>
      if s = "h1" then .ok [⟨"Hello", [], []⟩] else .error ()
    xpathRaw := fun _ => .ok [] }

def c3RuleBad : Rule := ⟨"broken", "css", "div:invalid(", none, false⟩

def c3RuleGood : Rule := ⟨"title", "css", "h1", none, false⟩

def c4Doc : Doc :=
  { cssSelect := fun _ => .ok [], xpathRaw := fun _ => .ok [] }

def c4Rule : Rule := ⟨"price", "regex", "x", none, false⟩

/-! ## Fetch Client (`src/utils/http_client.py`) -/

/-- Splits a character list at the first occurrence of `"://"`, returning
the part before it and the part after it. -/
def schemeSplit : List Char → List Char → Option (List Char × List Char)
  | acc, ':' :: '/' :: '/' :: rest => some (acc.reverse, rest)
  | acc, c :: rest => schemeSplit (c :: acc) rest
  | _, [] => none

/-- `f"{urlparse(url).scheme}://{urlparse(url).netloc}"`: the scheme+host
origin of a URL — the network location runs from after `"://"` up to the
first `/`, `?` or `#`, and the scheme is re-attached.  A URL with no
`"://"` parses with empty scheme and netloc, giving `"://"`. -/
def urlOrigin (url : String) : String :=
  match schemeSplit [] url.data with
  | some (scheme, rest) =>
      String.mk scheme ++ "://"
        ++ String.mk (rest.takeWhile (fun c => c ≠ '/' ∧ c ≠ '?' ∧ c ≠ '#'))
  | none => "://"

/-- Whether the second character list starts with the first. -/
def charsStart : List Char → List Char → Bool
  | [], _ => true
  | _ :: _, [] => false
  | p :: ps, c :: cs => p = c && charsStart ps cs

/-- `url.startswith(pre)` on strings. -/
def strStartsWith (s pre : String) : Bool := charsStart pre.data s.data

/-- `HttpClient.resolve_url(url, base_url=None)` with the client's
`current_base_url` passed explicitly: an absolute URL
(`url.startswith(('http://', 'https://'))`) is returned as-is, a relative
one is joined (`urllib.parse.urljoin`, here an abstract parameter `uj`)
against the base, or returned literally when no base is known. -/
def resolve_url (base : Option String) (url : String)
    (uj : String → String → String) : String :=
  if strStartsWith url "http://" || strStartsWith url "https://" then url
  else
    match base with
    | some b => uj b url
    | none => url

/-- The sleep performed by `HttpClient._apply_delay_with_jitter` given the
configured `delay`, the stored `last_request_time`, the current clock
reading `now` and the sampled jitter factor `j`: sleep the remainder of
`delay * j` not yet elapsed, or nothing when it already has. -/
def jitterSleepTime (delay last now j : ℚ) : ℚ :=
  if now - last < delay * j then delay * j - (now - last) else 0

/-- The outcome of one `self.session.get(url).raise_for_status()` attempt,
as an oracle value: either a response with its status code and final
(post-redirect) URL, or one of the exceptions `session.get` can raise. -/
inductive Attempt
  | resp (status : Nat) (finalUrl : String)
  | timeout
  | connError
  | reqError
deriving DecidableEq, Repr

/-- The exceptions `HttpClient.get` can raise. `generic` is the fresh
`RequestException` raised when the loop body never ran. -/
inductive FetchExc
  | timeout
  | connError
  | httpError (status : Nat)
  | reqError
  | generic
deriving DecidableEq, Repr

/-- How `get`'s attempt body classifies one outcome:
`raise_for_status` raises `HTTPError` for statuses in `[400, 600)`; the
`except` clause re-raises immediately on 4xx (`fatal`) and falls through to
the retry path otherwise (`retriable`). -/
inductive AttemptClass
  | ok (status : Nat) (finalUrl : String)
  | fatal (e : FetchExc)
  | retriable (e : FetchExc)
deriving DecidableEq, Repr

def classify : Attempt → AttemptClass
  | .resp s fu =>
      if 400 ≤ s then
        if s < 500 then .fatal (.httpError s)
        else if s < 600 then .retriable (.httpError s)
        else .ok s fu
      else .ok s fu
  | .timeout => .retriable .timeout
  | .connError => .retriable .connError
  | .reqError => .retriable .reqError

def AttemptClass.isRetriable : AttemptClass → Bool
  | .retriable _ => true
  | _ => false

def AttemptClass.retErr : AttemptClass → FetchExc
  | .retriable e => e
  | _ => .generic

/-- Observable events of one `get` call, in order: the single rate-limit
application (with the sleep it performed, possibly `0`), each request
attempt by zero-based index, and each exponential-backoff sleep. -/
inductive GetEvent
  | rateLimit (sleepTime : ℚ)
  | attempt (i : Nat)
  | backoffSleep (t : ℚ)
deriving DecidableEq, Repr

def countAttempts (evs : List GetEvent) : Nat :=
  evs.countP (fun e => match e with | .attempt _ => true | _ => false)

def countRateLimits (evs : List GetEvent) : Nat :=
  evs.countP (fun e => match e with | .rateLimit _ => true | _ => false)

def backoffTimes (evs : List GetEvent) : List ℚ :=
  evs.filterMap (fun e => match e with | .backoffSleep t => some t | _ => none)

/-- The `for attempt in range(max_retries)` loop of `HttpClient.get`,
structurally recursing on `rem`, the number of attempts still allowed
(initially `max_retries`, so the attempt index is `i` with
`rem = max_retries - i`).  A success or a 4xx returns/raises at once; a
retriable failure sleeps `backoff_factor * 2**attempt` and retries when
attempts remain (`attempt < max_retries - 1`, i.e. `rem > 1`), otherwise
the loop ends and the stored `last_exception` — the error of this final
attempt — is raised.  `rem = 0` on entry means `max_retries == 0`: the body
never ran, `last_exception is None`, and a fresh `RequestException` is
raised. -/
def runAttempts (bf : ℚ) (oracle : Nat → Attempt) :
    Nat → Nat → Except FetchExc (Nat × String) × List GetEvent
  | _, 0 => (.error .generic, [])
  | i, rem + 1 =>
    match classify (oracle i) with
    | .ok s fu => (.ok (s, fu), [.attempt i])
    | .fatal e => (.error e, [.attempt i])
    | .retriable e =>
      if rem = 0 then (.error e, [.attempt i])
      else
        ((runAttempts bf oracle (i + 1) rem).1,
         .attempt i :: .backoffSleep (bf * 2 ^ i)
           :: (runAttempts bf oracle (i + 1) rem).2)

/-- The mutable and configured state of one `HttpClient`. -/
structure HttpState where
  delay : ℚ
  timeout : ℚ
  max_retries : Nat
  backoff_factor : ℚ
  last_request_time : ℚ
  current_base_url : Option String
deriving DecidableEq, Repr

/-- `HttpClient.get(url)`: resolve the URL, set `current_base_url` to the
origin of the *resolved requested* URL, apply the rate-limit delay once,
then run the attempt loop; on success `last_request_time` is set to the
completion clock reading `succT`.  `now` is the clock at the rate-limit
check and `j` the sampled jitter factor; `oracle i` gives attempt `i`'s
outcome.  Returns the result (status and final URL, or the raised
exception), the event list, and the client state afterwards. -/
def get (st : HttpState) (uj : String → String → String) (url : String)
    (now succT j : ℚ) (oracle : Nat → Attempt) :
    Except FetchExc (Nat × String) × List GetEvent × HttpState :=
  let rurl := resolve_url st.current_base_url url uj
  let st1 := { st with current_base_url := some (urlOrigin rurl) }
  let sleepT := jitterSleepTime st.delay st.last_request_time now j
  let r := runAttempts st.backoff_factor oracle 0 st.max_retries
  let st2 := match r.1 with
    | .ok _ => { st1 with last_request_time := succT }
    | .error _ => st1
  (r.1, .rateLimit sleepT :: r.2, st2)

/-- Concrete HTTP client state and oracles for the witnesses below. -/
def httpSt0 : HttpState := ⟨1, 30, 3, 1/2, 0, none⟩

def ujConcat : String → String → String := fun b r => b ++ "/" ++ r

def oracleConn : Nat → Attempt := fun _ => .connError

def oracle404 : Nat → Attempt := fun _ => .resp 404 "http://e.com/x"

def oracleOnce : Nat → Attempt :=
  fun i => if i = 0 then .timeout else .resp 200 "http://e.com/"

def oracleRedir : Nat → Attempt := fun _ => .resp 200 "https://b.com/q"

/-! ## Crawl Orchestrator and pagination (`src/core/crawler.py`) -/

/-- The pagination configuration: `pagination['max_pages']` (default 1),
`pagination['next_page_selector']`, `pagination['type']` (default
`'css'`). -/
structure PagConfig where
  max_pages : Nat
  next_page_selector : String
  next_page_type : String
deriving DecidableEq, Repr

/-- Why the pagination loop stopped, following the spec's reason names:
the `while` condition failing is `max_pages_reached`; a failed
`_is_valid_next_page` check is `link_disabled`; an empty or falsy
extracted URL is `no_next_link`; a resolved URL already visited is
`duplicate_url`; an exception caught by the per-page `try` is
`fetch_error`. -/
inductive DoneReason
  | max_pages_reached
  | link_disabled
  | no_next_link
  | duplicate_url
  | fetch_error
deriving DecidableEq, Repr

/-- Exceptions raised outside `_handle_pagination`'s per-page `try` block,
which therefore propagate out of `crawl`: `typeError` is the `TypeError`
from calling `extract_by_xpath(selector, attr='href')` — the method
accepts no `attr` keyword argument; `cssError` is an exception escaping
the unprotected `extract_by_css` call. -/
inductive PagError
  | typeError
  | cssError
deriving DecidableEq, Repr

/-- The crawler state threaded through the loop: `self.visited_urls` (the
final URLs of fetched responses), `self.results`, and the HTTP client's
`current_base_url`. -/
structure CrawlState where
  visited : List String
  results : List (List (String × FieldValue))
  base_url : Option String
deriving DecidableEq, Repr

/-- One attempted pagination fetch, recording the resolved URL requested
and the visited set at the moment of the request. -/
structure FetchEvent where
  url : String
  visitedBefore : List String
deriving DecidableEq, Repr

/-- `WebCrawler._is_valid_next_page`: for CSS selectors the first matched
element must exist and must not be disabled — no truthy `disabled`
attribute, no class among disabled/inactive/unavailable, no
`aria-disabled="true"` — and must have a usable `href` (not `None`, `''`,
`'#'`, `'javascript:void(0)'` or `'javascript:;'`).  For any other
selector type, the XPath must yield at least one result.  All exceptions
are caught and yield `False`. -/
def is_valid_next_page (d : Doc) (selector : String) (selType : String) : Bool :=
  if selType = "css" then
    match d.cssSelect selector with
    | .error _ => false
    | .ok [] => false
    | .ok (el :: _) =>
      if pyTruthy (el.getAttr "disabled") then false
      else if el.classes.any (fun c =>
          c = "disabled" || c = "inactive" || c = "unavailable") then false
      else if el.getAttr "aria-disabled" = some "true" then false
      else
        match el.getAttr "href" with
        | none => false
        | some h =>
          !(h = "" || h = "#" || h = "javascript:void(0)" || h = "javascript:;")
  else
    match d.xpathRaw selector with
    | .error _ => false
    | .ok rs => !rs.isEmpty

/-- The `while current_page < max_pages` loop of
`WebCrawler._handle_pagination`, structurally recursing on
`rem = max_pages - current_page`, so `rem = 0` is exactly the loop
condition failing (`max_pages_reached`).  One iteration: the validity
check (`link_disabled` on failure); next-URL extraction — for `css` via
`extract_by_css(selector, attr='href')` (an exception here is raised
outside the `try` and propagates), for any other type the call
`extract_by_xpath(selector, attr='href')` raises `TypeError` immediately;
`no_next_link` when the list is empty or its head falsy; the duplicate
check of the resolved URL against the visited set (`duplicate_url`); then
the fetch via `HttpClient.get`, which sets the client base to the resolved
URL's origin even on failure — a fetch exception breaks the loop
(`fetch_error`) keeping the collected results, while on success the
response's final URL is recorded, the new record appended, and the loop
continues with `current_page + 1`.  `fetch` abstracts a whole `get` call:
the response's final URL and parsed document, or a terminal error.
Returns the final state, final `current_page`, the stop reason, and the
trace of attempted fetches. -/
def pagLoop (rules : List Rule) (pcfg : PagConfig)
    (fetch : String → Except Unit (String × Doc))
    (uj : String → String → String) :
    Doc → CrawlState → Nat → Nat →
    Except PagError (CrawlState × Nat × DoneReason × List FetchEvent)
  | _, st, cp, 0 => .ok (st, cp, .max_pages_reached, [])
  | doc, st, cp, rem + 1 =>
    if is_valid_next_page doc pcfg.next_page_selector pcfg.next_page_type then
      if pcfg.next_page_type = "css" then
        match extract_by_css doc pcfg.next_page_selector (some "href") with
        | .error _ => .error .cssError
        | .ok [] => .ok (st, cp, .no_next_link, [])
        | .ok (u :: _) =>
          if u = "" then .ok (st, cp, .no_next_link, [])
          else
            let resolved := resolve_url st.base_url u uj
            if resolved ∈ st.visited then .ok (st, cp, .duplicate_url, [])
            else
              let st1 := { st with base_url := some (urlOrigin resolved) }
              match fetch resolved with
              | .error _ =>
                  .ok (st1, cp, .fetch_error, [⟨resolved, st.visited⟩])
              | .ok (finalUrl, newDoc) =>
                  let st2 := { st1 with
                    visited := st1.visited ++ [finalUrl],
                    results := st1.results ++ [extract_all newDoc rules] }
                  match pagLoop rules pcfg fetch uj newDoc st2 (cp + 1) rem with
                  | .error e => .error e
                  | .ok (st', cp', r, evs) =>
                      .ok (st', cp', r, ⟨resolved, st.visited⟩ :: evs)
      else .error .typeError
    else .ok (st, cp, .link_disabled, [])

/-- The crawl target configuration fields `crawl` reads. -/
structure CrawlConfig where
  start_url : String
  extract_rules : List Rule
  pagination : Option PagConfig

/-- The errors `crawl` raises: a terminal fetch error on the start URL, or
an exception propagating out of `_handle_pagination`. -/
inductive CrawlError
  | fetchFailed
  | pagError (e : PagError)
deriving DecidableEq, Repr

/-- `WebCrawler.crawl()`: fetch the start URL (a terminal error re-raises
out of `crawl`), record the response's final URL in the visited set,
extract the first record, then — when a pagination policy is configured —
run `_handle_pagination`, whose escaping exceptions also re-raise; return
the accumulated results.  Besides `self.results`, the model also returns
the final state and the fetch trace for the theorems. -/
def crawl (cfg : CrawlConfig) (fetch : String → Except Unit (String × Doc))
    (uj : String → String → String) :
    Except CrawlError
      (List (List (String × FieldValue)) × CrawlState × List FetchEvent) :=
  let resolved := resolve_url none cfg.start_url uj
  match fetch resolved with
  | .error _ => .error .fetchFailed
  | .ok (fu, doc) =>
    let st0 : CrawlState :=
      { visited := [fu]
        results := [extract_all doc cfg.extract_rules]
        base_url := some (urlOrigin resolved) }
    match cfg.pagination with
    | none => .ok (st0.results, st0, [⟨resolved, []⟩])
    | some pcfg =>
      match pagLoop cfg.extract_rules pcfg fetch uj doc st0 1
          (pcfg.max_pages - 1) with
      | .error e => .error (.pagError e)
      | .ok (st', _, _, evs) => .ok (st'.results, st', ⟨resolved, []⟩ :: evs)

/-- Concrete pagination scenarios used by the witnesses below. -/
def pageElem (href : String) : Element := ⟨"next", [("href", href)], []⟩

def pageDoc (href : String) : Doc :=
  { cssSelect := fun s => if s = "a.next" then .ok [pageElem href] else .ok []
    xpathRaw := fun _ => .ok [] }

def pageDocEnd : Doc :=
  { cssSelect := fun _ => .ok [], xpathRaw := fun _ => .ok [] }

def pagCfg2 : PagConfig := ⟨2, "a.next", "css"⟩

def crawlCfg2 : CrawlConfig := ⟨"http://s.com/p1", [], some pagCfg2⟩

def fetchTwoPages : String → Except Unit (String × Doc) := fun u =>
  if u = "http://s.com/p1" then .ok ("http://s.com/p1", pageDoc "http://s.com/p2")
  else if u = "http://s.com/p2" then .ok ("http://s.com/p2", pageDocEnd)
  else .error ()

def fetchLoopSite : String → Except Unit (String × Doc) := fun u =>
  if u = "http://s.com/p1" then .ok ("http://s.com/p1", pageDoc "http://s.com/p1")
  else .error ()

def pagCfg5 : PagConfig := ⟨5, "a.next", "css"⟩

def crawlCfgLoop : CrawlConfig := ⟨"http://s.com/p1", [], some pagCfg5⟩

def fetchNone : String → Except Unit (String × Doc) := fun _ => .error ()

def fetchP2Fails : String → Except Unit (String × Doc) := fun u =>
  if u = "http://s.com/p1" then .ok ("http://s.com/p1", pageDoc "http://s.com/p2")
  else .error ()

def pagCfg3 : PagConfig := ⟨3, "a.next", "css"⟩

def crawlCfgP2F : CrawlConfig := ⟨"http://s.com/p1", [], some pagCfg3⟩

def xpathDoc : Doc :=
  { cssSelect := fun _ => .ok []
    xpathRaw := fun s =>
      if s = "//a/@href" then .ok ["http://s.com/p2"] else .ok [] }

def pagCfgX : PagConfig := ⟨3, "//a/@href", "xpath"⟩

def crawlCfgX : CrawlConfig := ⟨"http://s.com/p1", [], some pagCfgX⟩

def fetchXSite : String → Except Unit (String × Doc) := fun u =>
  if u = "http://s.com/p1" then .ok ("http://s.com/p1", xpathDoc)
  else .error ()

lemma dictInsert_fresh (d : List (String × FieldValue)) (k : String)
    (v : FieldValue) (hk : ∀ p ∈ d, p.1 ≠ k) :
    dictInsert d k v = d ++ [(k, v)] := by
  unfold dictInsert
  rw [if_neg]
  simp only [List.any_eq_true, decide_eq_true_eq, not_exists, not_and]
  exact hk

lemma extract_all_aux (d : Doc) (rules : List Rule)
    (acc : List (String × FieldValue))
    (hnd : (rules.map Rule.field).Nodup)
    (hdisj : ∀ p ∈ acc, ∀ r ∈ rules, p.1 ≠ r.field) :
    rules.foldl (fun data r => dictInsert data r.field (evalRule d r)) acc
      = acc ++ rules.map (fun r => (r.field, evalRule d r)) := by
  induction rules generalizing acc with
  | nil => simp
  | cons r rs ih =>
      have hnd2 : (∀ x ∈ rs, ¬x.field = r.field) ∧ (rs.map Rule.field).Nodup := by
        simpa using hnd
      simp only [List.foldl_cons]
      rw [dictInsert_fresh _ _ _ (fun p hp => hdisj p hp r (by simp))]
      rw [ih _ hnd2.2]
      · simp
      · intro p hp r' hr'
        rcases List.mem_append.mp hp with h | h
        · exact hdisj p h r' (List.mem_cons_of_mem _ hr')
        · simp only [List.mem_singleton] at h
          subst h
          exact fun heq => hnd2.1 r' hr' heq.symm

/-- With pairwise-distinct field names, `extract_all` is exactly the
in-order list of per-rule values. -/
lemma extract_all_eq_map (d : Doc) (rules : List Rule)
    (hnd : (rules.map Rule.field).Nodup) :
    extract_all d rules = rules.map (fun r => (r.field, evalRule d r)) := by
  unfold extract_all
  simpa using extract_all_aux d rules [] hnd (by simp)

/-- With pairwise-distinct field names, each rule's field resolves to that
rule's value, no matter what the other rules do. -/
lemma dictLookup_extract_all (d : Doc) (rules : List Rule)
    (hnd : (rules.map Rule.field).Nodup) (r : Rule) (hr : r ∈ rules) :
    dictLookup (extract_all d rules) r.field = some (evalRule d r) := by
  rw [extract_all_eq_map d rules hnd]
  induction rules with
  | nil => cases hr
  | cons r0 rs ih =>
      have hnd2 : (∀ x ∈ rs, ¬x.field = r0.field) ∧ (rs.map Rule.field).Nodup := by
        simpa using hnd
      rcases List.mem_cons.mp hr with h | h
      · subst h
        simp [dictLookup]
      · have hne : ¬ r0.field = r.field := fun heq => hnd2.1 r h heq.symm
        have hih := ih hnd2.2 h
        unfold dictLookup at hih ⊢
        rw [List.map_cons, List.find?_cons_of_neg _ (by simpa using hne)]
        exact hih

lemma runAttempts_ok_step {bf : ℚ} {oracle : Nat → Attempt} {i rem : Nat}
    {s : Nat} {fu : String} (he : classify (oracle i) = .ok s fu) :
    runAttempts bf oracle i (rem + 1) = (.ok (s, fu), [.attempt i]) := by
  simp only [runAttempts, he]

lemma runAttempts_fatal_step {bf : ℚ} {oracle : Nat → Attempt} {i rem : Nat}
    {e : FetchExc} (he : classify (oracle i) = .fatal e) :
    runAttempts bf oracle i (rem + 1) = (.error e, [.attempt i]) := by
  simp only [runAttempts, he]

lemma runAttempts_last {bf : ℚ} {oracle : Nat → Attempt} {i : Nat}
    {e : FetchExc} (he : classify (oracle i) = .retriable e) :
    runAttempts bf oracle i 1 = (.error e, [.attempt i]) := by
  simp [runAttempts, he]

lemma runAttempts_retry_step {bf : ℚ} {oracle : Nat → Attempt} {i rem : Nat}
    {e : FetchExc} (he : classify (oracle i) = .retriable e) (h0 : rem ≠ 0) :
    runAttempts bf oracle i (rem + 1)
      = ((runAttempts bf oracle (i + 1) rem).1,
         .attempt i :: .backoffSleep (bf * 2 ^ i)
           :: (runAttempts bf oracle (i + 1) rem).2) := by
  simp only [runAttempts, he, if_neg h0]

lemma runAttempts_no_rateLimit (bf : ℚ) (oracle : Nat → Attempt) :
    ∀ (rem i : Nat), countRateLimits (runAttempts bf oracle i rem).2 = 0 := by
  intro rem
  induction rem with
  | zero => intro i; simp [runAttempts, countRateLimits]
  | succ rem ih =>
    intro i
    cases hcl : classify (oracle i) with
    | ok s fu => rw [runAttempts_ok_step hcl]; simp [countRateLimits]
    | fatal e => rw [runAttempts_fatal_step hcl]; simp [countRateLimits]
    | retriable e =>
      by_cases h0 : rem = 0
      · subst h0; rw [runAttempts_last hcl]; simp [countRateLimits]
      · rw [runAttempts_retry_step hcl h0]
        have hih := ih (i + 1)
        simp only [countRateLimits, List.countP_cons] at hih ⊢
        simp [hih]

/-- If the first `k` attempts are retriable failures and attempt `k` is a
4xx, the loop raises that `HTTPError` at once after `k + 1` attempts, with
backoff sleeps `bf * 2 ^ (i + d)` for `d < k` between consecutive
attempts. -/
lemma runAttempts_fatal (bf : ℚ) (oracle : Nat → Attempt) :
    ∀ (k i rem : Nat), k < rem →
    (∀ d, d < k → (classify (oracle (i + d))).isRetriable = true) →
    ∀ e, classify (oracle (i + k)) = .fatal e →
    (runAttempts bf oracle i rem).1 = .error e ∧
    countAttempts (runAttempts bf oracle i rem).2 = k + 1 ∧
    backoffTimes (runAttempts bf oracle i rem).2
      = (List.range k).map (fun d => bf * 2 ^ (i + d)) := by
  intro k
  induction k with
  | zero =>
    intro i rem hk _ e hf
    obtain ⟨rem', rfl⟩ : ∃ r', rem = r' + 1 := ⟨rem - 1, by omega⟩
    simp only [Nat.add_zero] at hf
    rw [runAttempts_fatal_step hf]
    simp [countAttempts, backoffTimes]
  | succ k ih =>
    intro i rem hk hret e hf
    obtain ⟨rem', rfl⟩ : ∃ r', rem = r' + 1 := ⟨rem - 1, by omega⟩
    have hr0 : rem' ≠ 0 := by omega
    have h0 : (classify (oracle i)).isRetriable = true := by
      simpa using hret 0 (Nat.succ_pos k)
    obtain ⟨e0, he0⟩ : ∃ e0, classify (oracle i) = .retriable e0 := by
      cases hcl : classify (oracle i) with
      | retriable e0 => exact ⟨e0, rfl⟩
      | ok s fu => rw [hcl] at h0; simp [AttemptClass.isRetriable] at h0
      | fatal e1 => rw [hcl] at h0; simp [AttemptClass.isRetriable] at h0
    have hih := ih (i + 1) rem' (by omega)
      (fun d hd => by
        have := hret (d + 1) (by omega)
        simpa [Nat.add_assoc, Nat.add_comm 1 d] using this)
      e (by
        have heq : i + (k + 1) = (i + 1) + k := by omega
        rwa [heq] at hf)
    rw [runAttempts_retry_step he0 hr0]
    refine ⟨hih.1, ?_, ?_⟩
    · have h2 := hih.2.1
      simp only [countAttempts, List.countP_cons] at h2 ⊢
      simp [h2]
    · have h3 := hih.2.2
      simp only [backoffTimes, List.filterMap_cons] at h3 ⊢
      rw [h3, List.range_succ_eq_map, List.map_cons, List.map_map]
      refine congrArg₂ _ (by rw [Nat.add_zero]) ?_
      refine List.map_congr_left (fun d _ => ?_)
      simp only [Function.comp_apply]
      rw [Nat.add_assoc, Nat.add_comm 1 d]

/-- If all allowed attempts fail retriably, the loop runs exactly `rem`
attempts separated by the exponential backoffs and then raises the last
attempt's error. -/
lemma runAttempts_exhaust (bf : ℚ) (oracle : Nat → Attempt) :
    ∀ (rem i : Nat), 1 ≤ rem →
    (∀ d, d < rem → (classify (oracle (i + d))).isRetriable = true) →
    (runAttempts bf oracle i rem).1
      = .error ((classify (oracle (i + rem - 1))).retErr) ∧
    countAttempts (runAttempts bf oracle i rem).2 = rem ∧
    backoffTimes (runAttempts bf oracle i rem).2
      = (List.range (rem - 1)).map (fun d => bf * 2 ^ (i + d)) := by
  intro rem
  induction rem with
  | zero => intro i h1; omega
  | succ rem ih =>
    intro i _ hret
    have h0 : (classify (oracle i)).isRetriable = true := by
      simpa using hret 0 (Nat.succ_pos rem)
    obtain ⟨e0, he0⟩ : ∃ e0, classify (oracle i) = .retriable e0 := by
      cases hcl : classify (oracle i) with
      | retriable e0 => exact ⟨e0, rfl⟩
      | ok s fu => rw [hcl] at h0; simp [AttemptClass.isRetriable] at h0
      | fatal e1 => rw [hcl] at h0; simp [AttemptClass.isRetriable] at h0
    by_cases hr0 : rem = 0
    · subst hr0
      rw [runAttempts_last he0]
      refine ⟨?_, ?_, ?_⟩ <;>
        simp [countAttempts, backoffTimes, he0, AttemptClass.retErr]
    · have hih := ih (i + 1) (by omega)
        (fun d hd => by
          have := hret (d + 1) (by omega)
          simpa [Nat.add_assoc, Nat.add_comm 1 d] using this)
      rw [runAttempts_retry_step he0 hr0]
      refine ⟨?_, ?_, ?_⟩
      · have h1 := hih.1
        have hidx : i + 1 + rem - 1 = i + (rem + 1) - 1 := by omega
        rw [hidx] at h1
        exact h1
      · have h2 := hih.2.1
        simp only [countAttempts, List.countP_cons] at h2 ⊢
        simp [h2]
      · have h3 := hih.2.2
        simp only [backoffTimes, List.filterMap_cons] at h3 ⊢
        rw [h3]
        obtain ⟨rem', rfl⟩ : ∃ r', rem = r' + 1 := ⟨rem - 1, by omega⟩
        simp only [Nat.add_sub_cancel]
        rw [List.range_succ_eq_map, List.map_cons, List.map_map]
        refine congrArg₂ _ (by rw [Nat.add_zero]) ?_
        refine List.map_congr_left (fun d _ => ?_)
        simp only [Function.comp_apply]
        rw [Nat.add_assoc, Nat.add_comm 1 d]

/-- C1: in `extract_all`, a rule whose selector evaluation succeeds with
match list `ms` (in document order) yields the whole ordered list when
`multiple=true`, the first match or `None` when `multiple=false`, and in
particular `None` (not an error, not `""`) on zero matches. -/
theorem claim_c1_multiplicity (d : Doc) (rules : List Rule)
    (hnd : (rules.map Rule.field).Nodup) (r : Rule) (hr : r ∈ rules)
    (ms : List String) (hms : extractField d r = .ok ms) :
    (r.multiple = true →
      dictLookup (extract_all d rules) r.field = some (FieldValue.list ms)) ∧
    (r.multiple = false →
      dictLookup (extract_all d rules) r.field
        = some (FieldValue.scalar ms.head?)) ∧
    (r.multiple = false → ms = [] →
      dictLookup (extract_all d rules) r.field
        = some (FieldValue.scalar none)) := by
  have hl := dictLookup_extract_all d rules hnd r hr
  have hv : evalRule d r
      = if r.multiple then FieldValue.list ms else FieldValue.scalar ms.head? := by
    unfold evalRule; rw [hms]
  refine ⟨fun hm => ?_, fun hm => ?_, fun hm hnil => ?_⟩
  · rw [hl, hv, if_pos hm]
  · rw [hl, hv, if_neg (by simp [hm])]
  · rw [hl, hv, if_neg (by simp [hm]), hnil]; rfl

/-- Witness for C1 at a concrete document: a `multiple=true` rule with two
matches yields the ordered pair of values, and a `multiple=false` rule with
zero matches yields `None`. -/
theorem claim_c1_multiplicity_witness :
    dictLookup (extract_all c1Doc [c1RuleMulti, c1RuleMiss]) "titles"
      = some (FieldValue.list ["Hello", "World"]) ∧
    dictLookup (extract_all c1Doc [c1RuleMulti, c1RuleMiss]) "missing"
      = some (FieldValue.scalar none) := by
  have hnd : (([c1RuleMulti, c1RuleMiss]).map Rule.field).Nodup := by decide
  have h1 := (claim_c1_multiplicity c1Doc [c1RuleMulti, c1RuleMiss] hnd
    c1RuleMulti (by simp) ["Hello", "World"] rfl).1 rfl
  have h2 := (claim_c1_multiplicity c1Doc [c1RuleMulti, c1RuleMiss] hnd
    c1RuleMiss (by simp) [] rfl).2.2 rfl rfl
  exact ⟨h1, h2⟩

/-- C3: a rule whose evaluation raises is caught by the per-field handler
and resolves to `None` / `[]`; every other rule in the same list is still
evaluated to its own value. -/
theorem claim_c3_isolation (d : Doc) (rules : List Rule)
    (hnd : (rules.map Rule.field).Nodup) (r : Rule) (hr : r ∈ rules)
    (herr : extractField d r = .error ()) :
    dictLookup (extract_all d rules) r.field
      = some (if r.multiple then FieldValue.list [] else FieldValue.scalar none) ∧
    (∀ r' ∈ rules,
      dictLookup (extract_all d rules) r'.field = some (evalRule d r')) := by
  refine ⟨?_, fun r' hr' => dictLookup_extract_all d rules hnd r' hr'⟩
  rw [dictLookup_extract_all d rules hnd r hr]
  unfold evalRule
  rw [herr]

/-- Witness for C3 at a concrete document: the rule with the invalid
selector resolves to `None` while its sibling rule still extracts its
value. -/
theorem claim_c3_isolation_witness :
    dictLookup (extract_all c3Doc [c3RuleBad, c3RuleGood]) "broken"
      = some (FieldValue.scalar none) ∧
    dictLookup (extract_all c3Doc [c3RuleBad, c3RuleGood]) "title"
      = some (FieldValue.scalar (some "Hello")) := by
  have h := claim_c3_isolation c3Doc [c3RuleBad, c3RuleGood] (by decide)
    c3RuleBad (by simp) rfl
  refine ⟨by simpa using h.1, ?_⟩
  have h2 := h.2 c3RuleGood (by simp)
  have hv : evalRule c3Doc c3RuleGood = FieldValue.scalar (some "Hello") := rfl
  rw [hv] at h2
  exact h2

/-- C4 counterexample: a rule of unknown type `"regex"` is not rejected as
an error — `extract_all` returns normally with the field silently set to
`None`. -/
theorem claim_c4_counterexample :
    extract_all c4Doc [c4Rule] = [("price", FieldValue.scalar none)] ∧
    dictLookup (extract_all c4Doc [c4Rule]) "price"
      = some (FieldValue.scalar none) := ⟨rfl, rfl⟩

/-- C4 amended: an unknown rule type raises `ValueError` inside the `try`
block of `extract_all`, but the per-field handler catches it and the field
resolves to `None` (`multiple=false`) or `[]` (`multiple=true`); no default
extraction behaviour is used and no error propagates. -/
theorem claim_c4_amended (d : Doc) (r : Rule)
    (h1 : r.rtype ≠ "css") (h2 : r.rtype ≠ "xpath") :
    extractField d r = .error () ∧
    extract_all d [r]
      = [(r.field,
          if r.multiple then FieldValue.list [] else FieldValue.scalar none)] := by
  have he : extractField d r = .error () := by
    unfold extractField; rw [if_neg h1, if_neg h2]
  refine ⟨he, ?_⟩
  unfold extract_all
  simp [dictInsert, evalRule, he]

/-- Witness for the amended C4 at the concrete unknown-type rule. -/
theorem claim_c4_amended_witness :
    extractField c4Doc c4Rule = .error () ∧
    extract_all c4Doc [c4Rule] = [("price", FieldValue.scalar none)] := by
  have h := claim_c4_amended c4Doc c4Rule (by decide) (by decide)
  simpa using h

/-- C2: `HttpClient.get` raises a 4xx `HTTPError` immediately, with no
further attempt and no backoff after it; retriable failures (timeout,
connection error, 5xx, other transport errors) are retried up to
`max_retries` total attempts, sleeping `backoff_factor * 2 ^ attempt`
seconds (attempt zero-indexed) between consecutive attempts; after
exhausting all attempts the last error encountered is raised. -/
theorem claim_c2_retry_policy (st : HttpState) (uj : String → String → String)
    (url : String) (now succT j : ℚ) (oracle : Nat → Attempt) :
    (∀ k s fu, k < st.max_retries →
      (∀ d, d < k → (classify (oracle d)).isRetriable = true) →
      oracle k = .resp s fu → 400 ≤ s → s < 500 →
      (get st uj url now succT j oracle).1 = .error (.httpError s) ∧
      countAttempts (get st uj url now succT j oracle).2.1 = k + 1 ∧
      backoffTimes (get st uj url now succT j oracle).2.1
        = (List.range k).map (fun d => st.backoff_factor * 2 ^ d)) ∧
    (1 ≤ st.max_retries →
      (∀ d, d < st.max_retries → (classify (oracle d)).isRetriable = true) →
      (get st uj url now succT j oracle).1
        = .error ((classify (oracle (st.max_retries - 1))).retErr) ∧
      countAttempts (get st uj url now succT j oracle).2.1 = st.max_retries ∧
      backoffTimes (get st uj url now succT j oracle).2.1
        = (List.range (st.max_retries - 1)).map
            (fun d => st.backoff_factor * 2 ^ d)) := by
  have hres : (get st uj url now succT j oracle).1
      = (runAttempts st.backoff_factor oracle 0 st.max_retries).1 := rfl
  have hevs : (get st uj url now succT j oracle).2.1
      = .rateLimit (jitterSleepTime st.delay st.last_request_time now j)
        :: (runAttempts st.backoff_factor oracle 0 st.max_retries).2 := rfl
  constructor
  · intro k s fu hk hret hok h4 h5
    have hf : classify (oracle (0 + k)) = .fatal (.httpError s) := by
      rw [Nat.zero_add, hok]
      simp [classify, h4, h5]
    have hmain := runAttempts_fatal st.backoff_factor oracle k 0 st.max_retries
      hk (fun d hd => by simpa using hret d hd) (.httpError s) hf
    refine ⟨by rw [hres]; exact hmain.1, ?_, ?_⟩
    · rw [hevs]
      have h2 := hmain.2.1
      simp only [countAttempts, List.countP_cons] at h2 ⊢
      simp [h2]
    · rw [hevs]
      have h3 := hmain.2.2
      simp only [backoffTimes, List.filterMap_cons] at h3 ⊢
      simpa using h3
  · intro h1 hret
    have hmain := runAttempts_exhaust st.backoff_factor oracle st.max_retries 0
      h1 (fun d hd => by simpa using hret d hd)
    refine ⟨by rw [hres]; simpa using hmain.1, ?_, ?_⟩
    · rw [hevs]
      have h2 := hmain.2.1
      simp only [countAttempts, List.countP_cons] at h2 ⊢
      simp [h2]
    · rw [hevs]
      have h3 := hmain.2.2
      simp only [backoffTimes, List.filterMap_cons] at h3 ⊢
      simpa using h3

/-- Witness for C2: `max_retries = 3` with a permanent connection error
makes exactly 3 attempts with backoffs `[0.5, 1]` and raises the
connection error; an immediate 404 makes exactly 1 attempt and raises the
`HTTPError`. -/
theorem claim_c2_retry_policy_witness :
    (get httpSt0 ujConcat "http://e.com/x" 100 101 1 oracleConn).1
      = .error .connError ∧
    countAttempts
      (get httpSt0 ujConcat "http://e.com/x" 100 101 1 oracleConn).2.1 = 3 ∧
    backoffTimes
      (get httpSt0 ujConcat "http://e.com/x" 100 101 1 oracleConn).2.1
      = [1/2, 1] ∧
    (get httpSt0 ujConcat "http://e.com/x" 100 101 1 oracle404).1
      = .error (.httpError 404) ∧
    countAttempts
      (get httpSt0 ujConcat "http://e.com/x" 100 101 1 oracle404).2.1 = 1 := by
  have h2 := (claim_c2_retry_policy httpSt0 ujConcat "http://e.com/x"
    100 101 1 oracleConn).2 (by decide) (by decide)
  have h1 := (claim_c2_retry_policy httpSt0 ujConcat "http://e.com/x"
    100 101 1 oracle404).1 0 404 "http://e.com/x" (by decide) (by decide)
    rfl (by decide) (by decide)
  refine ⟨h2.1, h2.2.1, ?_, h1.1, h1.2.1⟩
  rw [h2.2.2]
  norm_num [httpSt0, List.range_succ]

/-- C5 counterexample: with `max_retries = 3`, a timeout on the first
attempt and a success on the second, the call performs two request
attempts but only one rate-limit application — the inter-request delay is
not enforced before each retry attempt. -/
theorem claim_c5_counterexample :
    countAttempts
      (get httpSt0 ujConcat "http://e.com/" 100 101 1 oracleOnce).2.1 = 2 ∧
    countRateLimits
      (get httpSt0 ujConcat "http://e.com/" 100 101 1 oracleOnce).2.1 = 1 ∧
    countRateLimits
      (get httpSt0 ujConcat "http://e.com/" 100 101 1 oracleOnce).2.1
      ≠ countAttempts
          (get httpSt0 ujConcat "http://e.com/" 100 101 1 oracleOnce).2.1 := by
  refine ⟨?_, ?_, ?_⟩ <;> decide

/-- C5 amended: the jittered rate-limit delay is applied exactly once per
`get()` call, before the first attempt only (retry attempts are separated
by the backoff sleeps instead); the sleep is the part of `delay * jitter`
not yet elapsed since `last_request_time`, and no sleep occurs when that
interval has already elapsed. -/
theorem claim_c5_amended (st : HttpState) (uj : String → String → String)
    (url : String) (now succT j : ℚ) (oracle : Nat → Attempt) :
    (get st uj url now succT j oracle).2.1
      = .rateLimit (jitterSleepTime st.delay st.last_request_time now j)
        :: (runAttempts st.backoff_factor oracle 0 st.max_retries).2 ∧
    countRateLimits (get st uj url now succT j oracle).2.1 = 1 ∧
    (st.delay * j ≤ now - st.last_request_time →
      jitterSleepTime st.delay st.last_request_time now j = 0) := by
  refine ⟨rfl, ?_, fun h => ?_⟩
  · have h0 := runAttempts_no_rateLimit st.backoff_factor oracle st.max_retries 0
    have hevs : (get st uj url now succT j oracle).2.1
        = .rateLimit (jitterSleepTime st.delay st.last_request_time now j)
          :: (runAttempts st.backoff_factor oracle 0 st.max_retries).2 := rfl
    rw [hevs]
    simp only [countRateLimits, List.countP_cons] at h0 ⊢
    simp [h0]
  · unfold jitterSleepTime
    rw [if_neg (not_lt.mpr h)]

/-- Witness for the amended C5 at a concrete call: one rate-limit
application heads the events, and the fully-elapsed interval produces a
zero sleep. -/
theorem claim_c5_amended_witness :
    countRateLimits
      (get httpSt0 ujConcat "http://e.com/" 100 101 1 oracleOnce).2.1 = 1 ∧
    jitterSleepTime httpSt0.delay httpSt0.last_request_time 100 1 = 0 := by
  have h := claim_c5_amended httpSt0 ujConcat "http://e.com/" 100 101 1 oracleOnce
  exact ⟨h.2.1, h.2.2 (by norm_num [httpSt0])⟩

/-- C6 counterexample: a request to `http://a.com/p` answered with final
URL `https://b.com/q` leaves `current_base_url` at the requested URL's
origin `http://a.com`, not at the final (post-redirect) URL's origin
`https://b.com`. -/
theorem claim_c6_counterexample :
    (get httpSt0 ujConcat "http://a.com/p" 100 101 1 oracleRedir).1
      = .ok (200, "https://b.com/q") ∧
    (get httpSt0 ujConcat "http://a.com/p" 100 101 1
        oracleRedir).2.2.current_base_url = some "http://a.com" ∧
    urlOrigin "https://b.com/q" = "https://b.com" ∧
    (some "http://a.com" : Option String) ≠ some "https://b.com" := by
  refine ⟨rfl, by decide, by decide, by decide⟩

/-- C6 amended: `get` sets `current_base_url` to the scheme+host origin of
the resolved *requested* URL — assigned before the attempt, hence also
when the request fails — not to the origin of the final post-redirect URL;
`last_request_time` is set to the completion time on success and is
unchanged on failure; no other client state changes. -/
theorem claim_c6_amended (st : HttpState) (uj : String → String → String)
    (url : String) (now succT j : ℚ) (oracle : Nat → Attempt) :
    (get st uj url now succT j oracle).2.2.current_base_url
      = some (urlOrigin (resolve_url st.current_base_url url uj)) ∧
    (get st uj url now succT j oracle).2.2.delay = st.delay ∧
    (get st uj url now succT j oracle).2.2.timeout = st.timeout ∧
    (get st uj url now succT j oracle).2.2.max_retries = st.max_retries ∧
    (get st uj url now succT j oracle).2.2.backoff_factor = st.backoff_factor ∧
    (∀ v, (get st uj url now succT j oracle).1 = .ok v →
      (get st uj url now succT j oracle).2.2.last_request_time = succT) ∧
    (∀ e, (get st uj url now succT j oracle).1 = .error e →
      (get st uj url now succT j oracle).2.2.last_request_time
        = st.last_request_time) := by
  have hres : (get st uj url now succT j oracle).1
      = (runAttempts st.backoff_factor oracle 0 st.max_retries).1 := rfl
  have hbase : (get st uj url now succT j oracle).2.2
      = (match (runAttempts st.backoff_factor oracle 0 st.max_retries).1 with
         | .ok _ =>
            { st with
              current_base_url :=
                some (urlOrigin (resolve_url st.current_base_url url uj)),
              last_request_time := succT }
         | .error _ =>
            { st with
              current_base_url :=
                some (urlOrigin (resolve_url st.current_base_url url uj)) }) := by
    rfl
  cases hr : (runAttempts st.backoff_factor oracle 0 st.max_retries).1 with
  | ok v =>
    rw [hr] at hbase
    refine ⟨by rw [hbase], by rw [hbase], by rw [hbase], by rw [hbase],
      by rw [hbase], fun v' hv => by rw [hbase], fun e he => ?_⟩
    rw [hres, hr] at he
    cases he
  | error e0 =>
    rw [hr] at hbase
    refine ⟨by rw [hbase], by rw [hbase], by rw [hbase], by rw [hbase],
      by rw [hbase], fun v' hv => ?_, fun e he => by rw [hbase]⟩
    rw [hres, hr] at hv
    cases hv

/-- Witness for the amended C6 at a concrete successful call. -/
theorem claim_c6_amended_witness :
    (get httpSt0 ujConcat "http://a.com/p" 100 101 1
        oracleRedir).2.2.current_base_url
      = some (urlOrigin (resolve_url httpSt0.current_base_url
          "http://a.com/p" ujConcat)) ∧
    (get httpSt0 ujConcat "http://a.com/p" 100 101 1
        oracleRedir).2.2.last_request_time = 101 := by
  have h := claim_c6_amended httpSt0 ujConcat "http://a.com/p" 100 101 1
    oracleRedir
  exact ⟨h.1, h.2.2.2.2.2.1 (200, "https://b.com/q") rfl⟩

section PagLemmas

variable {rules : List Rule} {pcfg : PagConfig}

variable {fetch : String → Except Unit (String × Doc)}

variable {uj : String → String → String}

variable {doc : Doc} {st : CrawlState} {cp rem : Nat}

lemma pagLoop_zero (rules : List Rule) (pcfg : PagConfig)
    (fetch : String → Except Unit (String × Doc))
    (uj : String → String → String) (doc : Doc) (st : CrawlState) (cp : Nat) :
    pagLoop rules pcfg fetch uj doc st cp 0
      = .ok (st, cp, .max_pages_reached, []) := rfl

lemma pagLoop_invalid
    (hv : is_valid_next_page doc pcfg.next_page_selector pcfg.next_page_type
      = false) :
    pagLoop rules pcfg fetch uj doc st cp (rem + 1)
      = .ok (st, cp, .link_disabled, []) := by
  simp [pagLoop, hv]

lemma pagLoop_xpath
    (hv : is_valid_next_page doc pcfg.next_page_selector pcfg.next_page_type
      = true)
    (ht : pcfg.next_page_type ≠ "css") :
    pagLoop rules pcfg fetch uj doc st cp (rem + 1) = .error .typeError := by
  simp [pagLoop, hv, ht]

lemma pagLoop_cssError
    (hv : is_valid_next_page doc pcfg.next_page_selector pcfg.next_page_type
      = true)
    (ht : pcfg.next_page_type = "css")
    (he : extract_by_css doc pcfg.next_page_selector (some "href")
      = .error ()) :
    pagLoop rules pcfg fetch uj doc st cp (rem + 1) = .error .cssError := by
  rw [ht] at hv
  simp [pagLoop, hv, ht, he]

lemma pagLoop_noUrls
    (hv : is_valid_next_page doc pcfg.next_page_selector pcfg.next_page_type
      = true)
    (ht : pcfg.next_page_type = "css")
    (he : extract_by_css doc pcfg.next_page_selector (some "href") = .ok []) :
    pagLoop rules pcfg fetch uj doc st cp (rem + 1)
      = .ok (st, cp, .no_next_link, []) := by
  rw [ht] at hv
  simp [pagLoop, hv, ht, he]

lemma pagLoop_emptyUrl {u : String} {us : List String}
    (hv : is_valid_next_page doc pcfg.next_page_selector pcfg.next_page_type
      = true)
    (ht : pcfg.next_page_type = "css")
    (he : extract_by_css doc pcfg.next_page_selector (some "href")
      = .ok (u :: us))
    (hu : u = "") :
    pagLoop rules pcfg fetch uj doc st cp (rem + 1)
      = .ok (st, cp, .no_next_link, []) := by
  rw [ht] at hv
  simp [pagLoop, hv, ht, he, hu]

lemma pagLoop_dup {u : String} {us : List String}
    (hv : is_valid_next_page doc pcfg.next_page_selector pcfg.next_page_type
      = true)
    (ht : pcfg.next_page_type = "css")
    (he : extract_by_css doc pcfg.next_page_selector (some "href")
      = .ok (u :: us))
    (hu : u ≠ "")
    (hdup : resolve_url st.base_url u uj ∈ st.visited) :
    pagLoop rules pcfg fetch uj doc st cp (rem + 1)
      = .ok (st, cp, .duplicate_url, []) := by
  rw [ht] at hv
  simp [pagLoop, hv, ht, he, hu, hdup]

lemma pagLoop_fetchErr {u : String} {us : List String}
    (hv : is_valid_next_page doc pcfg.next_page_selector pcfg.next_page_type
      = true)
    (ht : pcfg.next_page_type = "css")
    (he : extract_by_css doc pcfg.next_page_selector (some "href")
      = .ok (u :: us))
    (hu : u ≠ "")
    (hdup : resolve_url st.base_url u uj ∉ st.visited)
    (hf : fetch (resolve_url st.base_url u uj) = .error ()) :
    pagLoop rules pcfg fetch uj doc st cp (rem + 1)
      = .ok ({ st with
          base_url := some (urlOrigin (resolve_url st.base_url u uj)) },
        cp, .fetch_error, [⟨resolve_url st.base_url u uj, st.visited⟩]) := by
  rw [ht] at hv
  simp [pagLoop, hv, ht, he, hu, hdup, hf]

lemma pagLoop_fetchOk {u fu : String} {us : List String} {nd : Doc}
    (hv : is_valid_next_page doc pcfg.next_page_selector pcfg.next_page_type
      = true)
    (ht : pcfg.next_page_type = "css")
    (he : extract_by_css doc pcfg.next_page_selector (some "href")
      = .ok (u :: us))
    (hu : u ≠ "")
    (hdup : resolve_url st.base_url u uj ∉ st.visited)
    (hf : fetch (resolve_url st.base_url u uj) = .ok (fu, nd)) :
    pagLoop rules pcfg fetch uj doc st cp (rem + 1)
      = match pagLoop rules pcfg fetch uj nd
          ⟨st.visited ++ [fu], st.results ++ [extract_all nd rules],
            some (urlOrigin (resolve_url st.base_url u uj))⟩ (cp + 1) rem with
        | .error e => .error e
        | .ok (st', cp', r, evs) =>
            .ok (st', cp', r, ⟨resolve_url st.base_url u uj, st.visited⟩ :: evs) := by
  rw [ht] at hv
  simp [pagLoop, hv, ht, he, hu, hdup, hf]

end PagLemmas

/-- Structural invariant of the pagination loop: `current_page` only
grows, by at most the remaining page budget; exactly one record is
appended per page fetched; at most `rem` fetches are attempted; every
attempted fetch's URL was absent from the visited set at the moment of the
fetch; and the records collected before the loop are preserved as a prefix
of the final results. -/
lemma pagLoop_invariant (rules : List Rule) (pcfg : PagConfig)
    (fetch : String → Except Unit (String × Doc))
    (uj : String → String → String) :
    ∀ (rem : Nat) (doc : Doc) (st : CrawlState) (cp : Nat)
      {st' : CrawlState} {cp' : Nat} {r : DoneReason} {evs : List FetchEvent},
    pagLoop rules pcfg fetch uj doc st cp rem = .ok (st', cp', r, evs) →
    cp ≤ cp' ∧ cp' ≤ cp + rem ∧
    st'.results.length = st.results.length + (cp' - cp) ∧
    evs.length ≤ rem ∧
    (∀ ev ∈ evs, ev.url ∉ ev.visitedBefore) ∧
    (∃ tail, st'.results = st.results ++ tail) := by
  intro rem
  induction rem with
  | zero =>
    intro doc st cp st' cp' r evs h
    rw [pagLoop_zero] at h
    simp only [Except.ok.injEq, Prod.mk.injEq] at h
    obtain ⟨rfl, rfl, rfl, rfl⟩ := h
    exact ⟨le_refl _, by omega, by omega, by simp, by simp, ⟨[], by simp⟩⟩
  | succ rem ih =>
    intro doc st cp st' cp' r evs h
    by_cases hv : is_valid_next_page doc pcfg.next_page_selector
        pcfg.next_page_type = true
    case neg =>
      have hv' : is_valid_next_page doc pcfg.next_page_selector
          pcfg.next_page_type = false := by
        simpa using hv
      rw [pagLoop_invalid hv'] at h
      simp only [Except.ok.injEq, Prod.mk.injEq] at h
      obtain ⟨rfl, rfl, rfl, rfl⟩ := h
      exact ⟨le_refl _, by omega, by omega, by simp, by simp, ⟨[], by simp⟩⟩
    case pos =>
      by_cases ht : pcfg.next_page_type = "css"
      case neg =>
        rw [pagLoop_xpath hv ht] at h
        simp at h
      case pos =>
        cases hext : extract_by_css doc pcfg.next_page_selector (some "href") with
        | error e =>
          cases e
          rw [pagLoop_cssError hv ht hext] at h
          simp at h
        | ok next_urls =>
          cases next_urls with
          | nil =>
            rw [pagLoop_noUrls hv ht hext] at h
            simp only [Except.ok.injEq, Prod.mk.injEq] at h
            obtain ⟨rfl, rfl, rfl, rfl⟩ := h
            exact ⟨le_refl _, by omega, by omega, by simp, by simp,
              ⟨[], by simp⟩⟩
          | cons u us =>
            by_cases hu : u = ""
            case pos =>
              rw [pagLoop_emptyUrl hv ht hext hu] at h
              simp only [Except.ok.injEq, Prod.mk.injEq] at h
              obtain ⟨rfl, rfl, rfl, rfl⟩ := h
              exact ⟨le_refl _, by omega, by omega, by simp, by simp,
                ⟨[], by simp⟩⟩
            case neg =>
              by_cases hdup : resolve_url st.base_url u uj ∈ st.visited
              case pos =>
                rw [pagLoop_dup hv ht hext hu hdup] at h
                simp only [Except.ok.injEq, Prod.mk.injEq] at h
                obtain ⟨rfl, rfl, rfl, rfl⟩ := h
                exact ⟨le_refl _, by omega, by omega, by simp, by simp,
                  ⟨[], by simp⟩⟩
              case neg =>
                cases hf : fetch (resolve_url st.base_url u uj) with
                | error e =>
                  cases e
                  rw [pagLoop_fetchErr hv ht hext hu hdup hf] at h
                  simp only [Except.ok.injEq, Prod.mk.injEq] at h
                  obtain ⟨rfl, rfl, rfl, rfl⟩ := h
                  refine ⟨le_refl _, by omega, by simp, by simp, ?_,
                    ⟨[], by simp⟩⟩
                  intro ev hev
                  simp only [List.mem_singleton] at hev
                  subst hev
                  simpa using hdup
                | ok pr =>
                  obtain ⟨fu, nd⟩ := pr
                  rw [pagLoop_fetchOk hv ht hext hu hdup hf] at h
                  cases hrec : pagLoop rules pcfg fetch uj nd
                      ⟨st.visited ++ [fu],
                        st.results ++ [extract_all nd rules],
                        some (urlOrigin (resolve_url st.base_url u uj))⟩
                      (cp + 1) rem with
                  | error e =>
                    rw [hrec] at h
                    simp at h
                  | ok q =>
                    obtain ⟨stq, cpq, rq, evsq⟩ := q
                    rw [hrec] at h
                    simp only [Except.ok.injEq, Prod.mk.injEq] at h
                    obtain ⟨rfl, rfl, rfl, rfl⟩ := h
                    have hih := ih nd
                      ⟨st.visited ++ [fu],
                        st.results ++ [extract_all nd rules],
                        some (urlOrigin (resolve_url st.base_url u uj))⟩
                      (cp + 1) hrec
                    obtain ⟨h1, h2, h3, h4, h5, tail, htail⟩ := hih
                    have hlen : (st.results ++ [extract_all nd rules]).length
                        = st.results.length + 1 := by simp
                    refine ⟨by omega, by omega, ?_, ?_, ?_, ?_⟩
                    · simp only [hlen] at h3
                      omega
                    · simp only [List.length_cons]
                      omega
                    · intro ev hev
                      rcases List.mem_cons.mp hev with hev | hev
                      · subst hev
                        simpa using hdup
                      · exact h5 ev hev
                    · refine ⟨extract_all nd rules :: tail, ?_⟩
                      simpa [List.append_assoc] using htail

/-- C7: the pagination loop stops with `max_pages_reached` exactly when no
page budget remains (`current_page ≥ max_pages`, modelled by the remaining
budget `max_pages - current_page` being `0`), and a successful crawl with
`max_pages ≥ 1` returns at most `max_pages` records and attempts at most
`max_pages - 1` pagination fetch cycles beyond the start page. -/
theorem claim_c7_max_pages (rules : List Rule) (pcfg : PagConfig)
    (fetch : String → Except Unit (String × Doc))
    (uj : String → String → String) :
    (∀ (doc : Doc) (st : CrawlState) (cp : Nat),
      pagLoop rules pcfg fetch uj doc st cp 0
        = .ok (st, cp, .max_pages_reached, [])) ∧
    (∀ (cfg : CrawlConfig) res stf evs,
      1 ≤ pcfg.max_pages → cfg.pagination = some pcfg →
      crawl cfg fetch uj = .ok (res, stf, evs) →
      res.length ≤ pcfg.max_pages ∧
      evs.length ≤ 1 + (pcfg.max_pages - 1)) := by
  refine ⟨fun doc st cp => pagLoop_zero rules pcfg fetch uj doc st cp, ?_⟩
  intro cfg res stf evs hmp hpag hc
  simp only [crawl] at hc
  cases hfs : fetch (resolve_url none cfg.start_url uj) with
  | error e => simp only [hfs] at hc; simp at hc
  | ok pr =>
    obtain ⟨fu, doc⟩ := pr
    simp only [hfs, hpag] at hc
    cases hloop : pagLoop cfg.extract_rules pcfg fetch uj doc
        ⟨[fu], [extract_all doc cfg.extract_rules],
          some (urlOrigin (resolve_url none cfg.start_url uj))⟩ 1
        (pcfg.max_pages - 1) with
    | error e => simp only [hloop] at hc; simp at hc
    | ok q =>
      obtain ⟨st', cp', r, evs'⟩ := q
      simp only [hloop] at hc
      simp only [Except.ok.injEq, Prod.mk.injEq] at hc
      obtain ⟨rfl, rfl, rfl⟩ := hc
      have hinv := pagLoop_invariant cfg.extract_rules pcfg fetch uj
        (pcfg.max_pages - 1) doc
        ⟨[fu], [extract_all doc cfg.extract_rules],
          some (urlOrigin (resolve_url none cfg.start_url uj))⟩ 1 hloop
      obtain ⟨h1, h2, h3, h4, _, _⟩ := hinv
      constructor
      · have hlen : st'.results.length = 1 + (cp' - 1) := by simpa using h3
        omega
      · simp only [List.length_cons]
        omega

/-- Witness for C7: a two-page site under `max_pages = 2`: the loop with
zero budget stops at once with `max_pages_reached`, and the crawl collects
2 ≤ `max_pages` records over 1 + (`max_pages` - 1) fetches. -/
theorem claim_c7_max_pages_witness :
    pagLoop [] pagCfg2 fetchTwoPages ujConcat pageDocEnd ⟨[], [], none⟩ 5 0
      = .ok (⟨[], [], none⟩, 5, .max_pages_reached, []) ∧
    ([[], []] : List (List (String × FieldValue))).length ≤ pagCfg2.max_pages ∧
    ([⟨"http://s.com/p1", []⟩,
      ⟨"http://s.com/p2", ["http://s.com/p1"]⟩] : List FetchEvent).length
      ≤ 1 + (pagCfg2.max_pages - 1) := by
  have h := claim_c7_max_pages [] pagCfg2 fetchTwoPages ujConcat
  have hc : crawl crawlCfg2 fetchTwoPages ujConcat
      = .ok ([[], []],
        ⟨["http://s.com/p1", "http://s.com/p2"], [[], []], some "http://s.com"⟩,
        [⟨"http://s.com/p1", []⟩,
         ⟨"http://s.com/p2", ["http://s.com/p1"]⟩]) := by decide
  have hb := h.2 crawlCfg2 [[], []]
    ⟨["http://s.com/p1", "http://s.com/p2"], [[], []], some "http://s.com"⟩
    [⟨"http://s.com/p1", []⟩, ⟨"http://s.com/p2", ["http://s.com/p1"]⟩]
    (by decide) rfl hc
  exact ⟨h.1 pageDocEnd ⟨[], [], none⟩ 5, hb.1, hb.2⟩

/-- C8: when the resolved absolute next-URL is already in the visited set,
the pagination loop halts with `duplicate_url` before any fetch (empty
fetch trace for that step); and over a whole crawl, every attempted fetch
— the start fetch included — requests a URL that is absent from the
visited set at the moment of the request, so no visited URL is fetched a
second time. -/
theorem claim_c8_duplicate (pcfg : PagConfig)
    (fetch : String → Except Unit (String × Doc))
    (uj : String → String → String) :
    (∀ (rules : List Rule) (doc : Doc) (st : CrawlState) (cp rem : Nat)
      (u : String) (us : List String),
      is_valid_next_page doc pcfg.next_page_selector pcfg.next_page_type
        = true →
      pcfg.next_page_type = "css" →
      extract_by_css doc pcfg.next_page_selector (some "href")
        = .ok (u :: us) →
      u ≠ "" →
      resolve_url st.base_url u uj ∈ st.visited →
      pagLoop rules pcfg fetch uj doc st cp (rem + 1)
        = .ok (st, cp, .duplicate_url, [])) ∧
    (∀ (cfg : CrawlConfig) res stf evs,
      crawl cfg fetch uj = .ok (res, stf, evs) →
      ∀ ev ∈ evs, ev.url ∉ ev.visitedBefore) := by
  refine ⟨fun rules doc st cp rem u us hv ht he hu hdup =>
    pagLoop_dup hv ht he hu hdup, ?_⟩
  intro cfg res stf evs hc ev hev
  simp only [crawl] at hc
  cases hfs : fetch (resolve_url none cfg.start_url uj) with
  | error e => simp only [hfs] at hc; simp at hc
  | ok pr =>
    obtain ⟨fu, doc⟩ := pr
    simp only [hfs] at hc
    cases hp : cfg.pagination with
    | none =>
      simp only [hp] at hc
      simp only [Except.ok.injEq, Prod.mk.injEq] at hc
      obtain ⟨rfl, rfl, rfl⟩ := hc
      simp only [List.mem_singleton] at hev
      subst hev
      simp
    | some pcfg' =>
      simp only [hp] at hc
      cases hloop : pagLoop cfg.extract_rules pcfg' fetch uj doc
          ⟨[fu], [extract_all doc cfg.extract_rules],
            some (urlOrigin (resolve_url none cfg.start_url uj))⟩ 1
          (pcfg'.max_pages - 1) with
      | error e => simp only [hloop] at hc; simp at hc
      | ok q =>
        obtain ⟨st', cp', r, evs'⟩ := q
        simp only [hloop] at hc
        simp only [Except.ok.injEq, Prod.mk.injEq] at hc
        obtain ⟨rfl, rfl, rfl⟩ := hc
        rcases List.mem_cons.mp hev with hev | hev
        · subst hev; simp
        · exact (pagLoop_invariant cfg.extract_rules pcfg' fetch uj
            (pcfg'.max_pages - 1) doc
            ⟨[fu], [extract_all doc cfg.extract_rules],
              some (urlOrigin (resolve_url none cfg.start_url uj))⟩ 1
            hloop).2.2.2.2.1 ev hev

/-- Witness for C8: a site whose next link always resolves back to the
already-visited start page halts with `duplicate_url` before fetching, and
in the concrete crawl of that site every fetch request was for a URL not
yet visited. -/
theorem claim_c8_duplicate_witness :
    pagLoop [] pagCfg5 fetchLoopSite ujConcat (pageDoc "http://s.com/p1")
      ⟨["http://s.com/p1"], [[]], some "http://s.com"⟩ 1 4
      = .ok (⟨["http://s.com/p1"], [[]], some "http://s.com"⟩, 1,
          .duplicate_url, []) ∧
    (⟨"http://s.com/p1", []⟩ : FetchEvent).url
      ∉ (⟨"http://s.com/p1", []⟩ : FetchEvent).visitedBefore := by
  have h := claim_c8_duplicate pagCfg5 fetchLoopSite ujConcat
  have hc : crawl crawlCfgLoop fetchLoopSite ujConcat
      = .ok ([[]], ⟨["http://s.com/p1"], [[]], some "http://s.com"⟩,
          [⟨"http://s.com/p1", []⟩]) := by decide
  refine ⟨?_, ?_⟩
  · have := h.1 [] (pageDoc "http://s.com/p1")
      ⟨["http://s.com/p1"], [[]], some "http://s.com"⟩ 1 3
      "http://s.com/p1" [] (by decide) rfl (by decide) (by decide) (by decide)
    exact this
  · exact h.2 crawlCfgLoop [[]]
      ⟨["http://s.com/p1"], [[]], some "http://s.com"⟩
      [⟨"http://s.com/p1", []⟩] hc ⟨"http://s.com/p1", []⟩ (by decide)

/-- C9: a terminal fetch error on the start URL makes `crawl` raise and
return nothing; a terminal fetch error on a pagination page makes the loop
stop with `fetch_error` while preserving the collected records, and
`crawl` still returns normally with everything collected so far. -/
theorem claim_c9_fetch_failures (pcfg : PagConfig)
    (fetch : String → Except Unit (String × Doc))
    (uj : String → String → String) :
    (∀ (cfg : CrawlConfig),
      fetch (resolve_url none cfg.start_url uj) = .error () →
      crawl cfg fetch uj = .error .fetchFailed) ∧
    (∀ (rules : List Rule) (doc : Doc) (st : CrawlState) (cp rem : Nat)
      (u : String) (us : List String),
      is_valid_next_page doc pcfg.next_page_selector pcfg.next_page_type
        = true →
      pcfg.next_page_type = "css" →
      extract_by_css doc pcfg.next_page_selector (some "href")
        = .ok (u :: us) →
      u ≠ "" →
      resolve_url st.base_url u uj ∉ st.visited →
      fetch (resolve_url st.base_url u uj) = .error () →
      pagLoop rules pcfg fetch uj doc st cp (rem + 1)
        = .ok ({ st with
            base_url := some (urlOrigin (resolve_url st.base_url u uj)) },
            cp, .fetch_error, [⟨resolve_url st.base_url u uj, st.visited⟩]) ∧
      ({ st with
          base_url := some (urlOrigin (resolve_url st.base_url u uj))
        } : CrawlState).results = st.results) ∧
    (∀ (cfg : CrawlConfig) (fu : String) (doc : Doc) (st' : CrawlState)
      (cp' : Nat) (r : DoneReason) (evs' : List FetchEvent),
      cfg.pagination = some pcfg →
      fetch (resolve_url none cfg.start_url uj) = .ok (fu, doc) →
      pagLoop cfg.extract_rules pcfg fetch uj doc
        ⟨[fu], [extract_all doc cfg.extract_rules],
          some (urlOrigin (resolve_url none cfg.start_url uj))⟩ 1
        (pcfg.max_pages - 1) = .ok (st', cp', r, evs') →
      crawl cfg fetch uj
        = .ok (st'.results, st',
            ⟨resolve_url none cfg.start_url uj, []⟩ :: evs')) := by
  refine ⟨?_, ?_, ?_⟩
  · intro cfg hstart
    simp only [crawl, hstart]
  · intro rules doc st cp rem u us hv ht he hu hdup hf
    exact ⟨pagLoop_fetchErr hv ht he hu hdup hf, rfl⟩
  · intro cfg fu doc st' cp' r evs' hpag hfs hloop
    simp only [crawl, hfs, hpag, hloop]

/-- Witness for C9: with an always-failing fetch the concrete crawl
raises; with a site whose second page fails to fetch, the loop reports
`fetch_error` with the start page's record preserved and the crawl returns
it. -/
theorem claim_c9_fetch_failures_witness :
    crawl crawlCfgP2F fetchNone ujConcat = .error .fetchFailed ∧
    pagLoop [] pagCfg3 fetchP2Fails ujConcat (pageDoc "http://s.com/p2")
      ⟨["http://s.com/p1"], [[]], some "http://s.com"⟩ 1 2
      = .ok (⟨["http://s.com/p1"], [[]], some "http://s.com"⟩, 1,
          .fetch_error, [⟨"http://s.com/p2", ["http://s.com/p1"]⟩]) ∧
    crawl crawlCfgP2F fetchP2Fails ujConcat
      = .ok ([[]], ⟨["http://s.com/p1"], [[]], some "http://s.com"⟩,
          [⟨"http://s.com/p1", []⟩,
           ⟨"http://s.com/p2", ["http://s.com/p1"]⟩]) := by
  have ha := (claim_c9_fetch_failures pagCfg3 fetchNone ujConcat).1
    crawlCfgP2F rfl
  have hb := (claim_c9_fetch_failures pagCfg3 fetchP2Fails ujConcat).2.1
    [] (pageDoc "http://s.com/p2")
    ⟨["http://s.com/p1"], [[]], some "http://s.com"⟩ 1 1
    "http://s.com/p2" [] (by decide) rfl (by decide) (by decide) (by decide)
    rfl
  have hloop : pagLoop [] pagCfg3 fetchP2Fails ujConcat
      (pageDoc "http://s.com/p2")
      ⟨["http://s.com/p1"], [[]], some "http://s.com"⟩ 1
      (pagCfg3.max_pages - 1)
      = .ok (⟨["http://s.com/p1"], [[]], some "http://s.com"⟩, 1,
          .fetch_error, [⟨"http://s.com/p2", ["http://s.com/p1"]⟩]) := by
    decide
  have hcw := (claim_c9_fetch_failures pagCfg3 fetchP2Fails ujConcat).2.2
    crawlCfgP2F "http://s.com/p1" (pageDoc "http://s.com/p2")
    ⟨["http://s.com/p1"], [[]], some "http://s.com"⟩ 1 .fetch_error
    [⟨"http://s.com/p2", ["http://s.com/p1"]⟩] rfl rfl hloop
  exact ⟨ha, hb.1, hcw⟩

/-- C10: with pagination type `'xpath'` and a next-page selector matching
at least one node (so `_is_valid_next_page` passes), the pagination step
calls `extract_by_xpath(selector, attr='href')`; the method accepts no
`attr` keyword, so a `TypeError` is raised outside the per-page `try`,
propagates out of `_handle_pagination`, and `crawl` re-raises it: the run
aborts with an error instead of returning the collected records. -/
theorem claim_c10_xpath_type_error (pcfg : PagConfig)
    (fetch : String → Except Unit (String × Doc))
    (uj : String → String → String)
    (hx : pcfg.next_page_type = "xpath") :
    (∀ (rules : List Rule) (doc : Doc) (st : CrawlState) (cp rem : Nat)
      (rs : List String),
      doc.xpathRaw pcfg.next_page_selector = .ok rs → rs ≠ [] →
      pagLoop rules pcfg fetch uj doc st cp (rem + 1) = .error .typeError) ∧
    (∀ (cfg : CrawlConfig) (fu : String) (doc : Doc) (rs : List String),
      cfg.pagination = some pcfg → 2 ≤ pcfg.max_pages →
      fetch (resolve_url none cfg.start_url uj) = .ok (fu, doc) →
      doc.xpathRaw pcfg.next_page_selector = .ok rs → rs ≠ [] →
      crawl cfg fetch uj = .error (.pagError .typeError)) := by
  have hcss : pcfg.next_page_type ≠ "css" := by rw [hx]; decide
  have hvalid : ∀ (doc : Doc) (rs : List String),
      doc.xpathRaw pcfg.next_page_selector = .ok rs → rs ≠ [] →
      is_valid_next_page doc pcfg.next_page_selector pcfg.next_page_type
        = true := by
    intro doc rs hxp hne
    cases rs with
    | nil => exact absurd rfl hne
    | cons a as => simp [is_valid_next_page, hx, hxp]
  refine ⟨fun rules doc st cp rem rs hxp hne =>
    pagLoop_xpath (hvalid doc rs hxp hne) hcss, ?_⟩
  intro cfg fu doc rs hpag hmp hfs hxp hne
  obtain ⟨rem, hrem⟩ : ∃ rem, pcfg.max_pages - 1 = rem + 1 :=
    ⟨pcfg.max_pages - 2, by omega⟩
  have hloop : pagLoop cfg.extract_rules pcfg fetch uj doc
      ⟨[fu], [extract_all doc cfg.extract_rules],
        some (urlOrigin (resolve_url none cfg.start_url uj))⟩ 1
      (pcfg.max_pages - 1) = .error .typeError := by
    rw [hrem]
    exact pagLoop_xpath (hvalid doc rs hxp hne) hcss
  simp only [crawl, hfs, hpag, hloop]

/-- Witness for C10: a concrete xpath-paginated site whose selector
matches one node: the loop raises `TypeError` and the crawl aborts with
the propagated error. -/
theorem claim_c10_xpath_type_error_witness :
    pagLoop [] pagCfgX fetchXSite ujConcat xpathDoc ⟨[], [], none⟩ 1 1
      = .error .typeError ∧
    crawl crawlCfgX fetchXSite ujConcat = .error (.pagError .typeError) := by
  have h := claim_c10_xpath_type_error pagCfgX fetchXSite ujConcat rfl
  exact ⟨h.1 [] xpathDoc ⟨[], [], none⟩ 1 0 ["http://s.com/p2"] rfl
      (by decide),
    h.2 crawlCfgX "http://s.com/p1" xpathDoc ["http://s.com/p2"] rfl
      (by decide) rfl rfl (by decide)⟩

end WebCrawlerModel
